import Mathlib

/-!
# Verification of the mock-draft simulation engine

A shallow embedding of `draft_engine.py` (the core draft model of the
mock-draft-sim repository) together with proofs of the specification's
testable properties.

Modelling conventions:
* Python floats (`ADP`, scores, penalties, weights) are embedded as `ℚ`;
  all arithmetic performed by the engine on them is exact (+, -, *, min),
  so rationals are a faithful carrier.
* `random.uniform(-noise_scale, noise_scale)` is embedded by passing an
  explicit unit draw `u ∈ [-1, 1]` (one per scored candidate) and forming
  the noise as `u * noise_scale * randomness_factor`.
* Python exceptions (`ValueError` of `make_user_pick`, the `ValueError`
  raised by `max()` on an empty sequence) are embedded as an `Except`
  result paired with the state at raise time.  Both raises happen before
  any mutation, so the paired state is the entry state.
* `list.pop(index)` / `list.index(value)` on the pool are embedded with
  `List.erase` (first structurally-equal occurrence — dataclass equality).
* `pandas.sort_values("ADP")` is embedded as an insertion sort by ADP
  (the engine never relies on tie order or on the particular algorithm).
-/

namespace MockDraft

/-- `Player` dataclass of `draft_engine.py`. -/
structure Player where
  name : String
  position : String
  team : String
  adp : ℚ
deriving DecidableEq

/-- `Team` dataclass of `draft_engine.py`: a named, append-only roster. -/
structure Team where
  name : String
  picks : List Player
deriving DecidableEq

/-- `Team.add_player`. -/
def Team.add_player (t : Team) (p : Player) : Team :=
  { t with picks := t.picks ++ [p] }

/-- One row of the catalog table handed to `Draft.__init__`
(`Player`, `Position`, `Team`, `ADP` columns, plus the optional
`Rookie` flag value). -/
structure CatalogRow where
  player : String
  positionLabel : String
  team : String
  adp : ℚ
  rookie : ℕ
deriving DecidableEq

/-- Characters before the first `'-'`. -/
def takeUntilDash : List Char → List Char
  | [] => []
  | c :: cs => if c = '-' then [] else c :: takeUntilDash cs

/-- `"WR-01" -> "WR"`: `df["Position"].str.split("-").str[0]`. -/
def posGroup (s : String) : String :=
  ⟨takeUntilDash s.data⟩

/-- Insertion of a row into a list already sorted ascending by ADP. -/
def insertByADP (r : CatalogRow) : List CatalogRow → List CatalogRow
  | [] => [r]
  | x :: xs => if r.adp ≤ x.adp then r :: x :: xs else x :: insertByADP r xs

/-- `df.sort_values("ADP", ascending=True)` (insertion sort by ADP). -/
def sortByADP : List CatalogRow → List CatalogRow
  | [] => []
  | x :: xs => insertByADP x (sortByADP xs)

/-- The state held by the `Draft` class. -/
structure Draft where
  num_teams : ℕ
  num_rounds : ℕ
  user_team_index : ℕ
  teams : List Team
  rookie_names : List String
  player_pool : List Player
  current_round : ℕ
  current_pick_in_round : ℕ
deriving DecidableEq

/-- `Draft.__init__`: build rookie set (when the `Rookie` column exists),
strip position sub-ranks, sort the catalog by ADP ascending, build the
pool, and start at round 1, pick 1. -/
def Draft.init (rows : List CatalogRow) (hasRookieCol : Bool)
    (num_teams num_rounds user_team_index : ℕ) : Draft :=
  { num_teams := num_teams
    num_rounds := num_rounds
    user_team_index := user_team_index
    teams := (List.range num_teams).map
      (fun i => { name := "Team " ++ toString (i + 1), picks := [] })
    rookie_names :=
      if hasRookieCol then
        ((rows.filter (fun r => r.rookie == 1)).map (fun r => r.player))
      else []
    player_pool := (sortByADP rows).map
      (fun r =>
        { name := r.player
          position := posGroup r.positionLabel
          team := r.team
          adp := r.adp })
    current_round := 1
    current_pick_in_round := 1 }

/-- `Draft._get_pick_order`: snake draft — odd rounds `0..N-1`,
even rounds reversed. -/
def Draft.get_pick_order (d : Draft) (rnd : ℕ) : List ℕ :=
  let order := List.range d.num_teams
  if rnd % 2 = 0 then order.reverse else order

/-- `Draft.get_current_team_index`:
`order[current_pick_in_round - 1]`. -/
def Draft.get_current_team_index (d : Draft) : ℕ :=
  (d.get_pick_order d.current_round).getD (d.current_pick_in_round - 1) 0

/-- `Draft._advance_pick`. -/
def Draft.advance_pick (d : Draft) : Draft :=
  if d.current_pick_in_round < d.num_teams then
    { d with current_pick_in_round := d.current_pick_in_round + 1 }
  else
    { d with current_pick_in_round := 1, current_round := d.current_round + 1 }

/-- `Draft.is_finished`: `current_round > num_rounds`. -/
def Draft.is_finished (d : Draft) : Bool :=
  d.num_rounds < d.current_round

/-- `self.teams[team_idx].add_player(player)` — appends `p` to the roster
at index `idx` (out-of-range indices leave the list unchanged; they raise
in Python and never occur in well-formed states). -/
def modifyTeams (teams : List Team) (idx : ℕ) (p : Player) : List Team :=
  match teams, idx with
  | [], _ => []
  | t :: ts, 0 => t.add_player p :: ts
  | t :: ts, i + 1 => t :: modifyTeams ts i p

/-- `Draft._pop_best_available`. -/
def Draft.pop_best_available (d : Draft) : Option Player × Draft :=
  match d.player_pool with
  | [] => (none, d)
  | p :: rest => (some p, { d with player_pool := rest })

/-- `Draft.make_bot_pick`: pop the best-ADP player (if any), give it to
the current team, and advance the pick — note the advance happens even
when the pool was empty. -/
def Draft.make_bot_pick (d : Draft) : Option Player × Draft :=
  let popped := d.pop_best_available
  let d1 := popped.2
  let team_idx := d1.get_current_team_index
  let d2 :=
    match popped.1 with
    | some p => { d1 with teams := modifyTeams d1.teams team_idx p }
    | none => d1
  (popped.1, d2.advance_pick)

/-- Number of players of a given position on a roster
(`sum(1 for p in team.picks if p.position == pos)`). -/
def posCount (t : Team) (pos : String) : ℕ :=
  (t.picks.filter (fun p => p.position == pos)).length

/-- The roster currently on the clock (`self.teams[team_idx]`). -/
def Draft.currentTeam (d : Draft) : Team :=
  d.teams.getD d.get_current_team_index { name := "", picks := [] }

/-- `Draft._score_player_for_prefs`, with the `random.uniform` draw made
explicit: `u` is the unit draw, the noise added is
`u * noise_scale * randomness_factor` with `u ∈ [-1, 1]`. -/
def Draft.score_player_for_prefs (d : Draft) (player : Player)
    (rb_pref qb_pref rookie_pref : ℚ) (fav_team : Option String)
    (team_pref stack_weight randomness_factor : ℚ) (u : ℚ) : ℚ :=
  let score0 : ℚ := -player.adp
  let team := d.currentTeam
  let qb_count := posCount team "QB"
  let te_count := posCount team "TE"
  let rb_count := posCount team "RB"
  let wr_count := posCount team "WR"
  let qb_teams :=
    (team.picks.filter (fun p => p.position == "QB")).map (fun p => p.team)
  let receiver_teams :=
    (team.picks.filter
      (fun p => p.position == "WR" || p.position == "TE")).map (fun p => p.team)
  let overall_pick := (d.current_round - 1) * d.num_teams + d.current_pick_in_round
  let round_index := (overall_pick - 1) / d.num_teams + 1
  let score1 := score0 + (if player.position = "RB" then rb_pref else 0)
  let score2 := score1 + (if player.position = "QB" then qb_pref else 0)
  let is_rookie := d.rookie_names.contains player.name
  let score3 := score2 + (if is_rookie then rookie_pref else 0)
  let score4 := score3 +
    (match fav_team with
     | some t => if player.team = t then team_pref else 0
     | none => 0)
  let score5 := score4 -
    (if player.position = "QB" then
       (if 2 ≤ qb_count then 1000000
        else if 1 ≤ qb_count ∧ round_index ≤ 6 then 8 else 0)
     else 0)
  let score6 := score5 -
    (if player.position = "TE" then
       (if 2 ≤ te_count then 1000000
        else if 1 ≤ te_count ∧ round_index ≤ 6 then 8 else 0)
     else 0)
  let score7 := score6 -
    (if player.position = "WR" then
       (if 4 ≤ wr_count ∧ rb_count = 0 then 12
        else if 4 ≤ wr_count ∧ rb_count ≤ 1 ∧ round_index ≤ 8 then 6 else 0)
     else 0)
  let score8 := score7 -
    (if player.position = "RB" then
       (if 4 ≤ rb_count ∧ wr_count = 0 then 12
        else if 4 ≤ rb_count ∧ wr_count ≤ 1 ∧ round_index ≤ 8 then 6 else 0)
     else 0)
  let score9 := score8 +
    (if (player.position = "WR" ∨ player.position = "TE") ∧
        qb_teams.contains player.team = true then stack_weight else 0)
  let score10 := score9 +
    (if player.position = "QB" ∧ receiver_teams.contains player.team = true
     then stack_weight else 0)
  let noise_scale : ℚ := min (1 + (1 / 2) * ((round_index : ℚ) - 1)) 4
  let noise := u * noise_scale * randomness_factor
  score10 + noise

/-- Errors the engine can raise while picking. -/
inductive PickError where
  /-- `ValueError("It's not the user's turn!")`. -/
  | notUsersTurn
  /-- the `ValueError` Python's `max()` raises on an empty sequence. -/
  | emptyMax
deriving DecidableEq

instance {ε α : Type} [DecidableEq ε] [DecidableEq α] :
    DecidableEq (Except ε α) := fun a b =>
  match a, b with
  | Except.error e, Except.error f =>
    if h : e = f then isTrue (by rw [h])
    else isFalse (fun c => h (by injection c))
  | Except.error _, Except.ok _ => isFalse (fun c => by injection c)
  | Except.ok _, Except.error _ => isFalse (fun c => by injection c)
  | Except.ok x, Except.ok y =>
    if h : x = y then isTrue (by rw [h])
    else isFalse (fun c => h (by injection c))

/-- Python's `max(xs, key=key)` for a non-empty list: the first element
attaining the maximal key wins ties. -/
def maxByKey (key : α → ℚ) : List α → Option α
  | [] => none
  | x :: xs =>
    match maxByKey key xs with
    | none => some x
    | some m => if key x < key m then some m else some x

/-- `Draft.make_bot_pick_with_prefs`.  `noiseF i` is the unit noise draw
used while scoring the `i`-th candidate of the lookahead window.  The
result pairs the returned value (or raised error) with the state when
the call ends (the entry state, when it raises). -/
def Draft.make_bot_pick_with_prefs (d : Draft)
    (rb_pref qb_pref rookie_pref : ℚ) (fav_team : Option String)
    (team_pref stack_weight randomness_factor : ℚ)
    (lookahead : ℕ) (noiseF : ℕ → ℚ) :
    Except PickError (Option Player) × Draft :=
  if d.player_pool = [] then (Except.ok none, d)
  else
    let candidates := d.player_pool.take lookahead
    match maxByKey
        (fun ip => d.score_player_for_prefs ip.2 rb_pref qb_pref rookie_pref
          fav_team team_pref stack_weight randomness_factor (noiseF ip.1))
        candidates.enum with
    | none => (Except.error PickError.emptyMax, d)
    | some best =>
      let pool1 := d.player_pool.erase best.2
      let team_idx := d.get_current_team_index
      let d1 := { d with player_pool := pool1
                         teams := modifyTeams d.teams team_idx best.2 }
      (Except.ok (some best.2), d1.advance_pick)

/-- Remove the first pool entry whose `name` matches (the scan-and-pop
loop of `make_user_pick`). -/
def findRemoveByName : List Player → String → Option (Player × List Player)
  | [], _ => none
  | p :: rest, nm =>
    if p.name = nm then some (p, rest)
    else
      match findRemoveByName rest nm with
      | none => none
      | some (q, rest2) => some (q, p :: rest2)

/-- `Draft.make_user_pick`. -/
def Draft.make_user_pick (d : Draft) (player_name : String) :
    Except PickError (Option Player) × Draft :=
  let team_idx := d.get_current_team_index
  if team_idx ≠ d.user_team_index then (Except.error PickError.notUsersTurn, d)
  else
    match findRemoveByName d.player_pool player_name with
    | none => (Except.ok none, d)
    | some (p, pool1) =>
      (Except.ok (some p),
        ({ d with player_pool := pool1
                  teams := modifyTeams d.teams team_idx p } : Draft).advance_pick)

/-- `Draft.get_available_players`. -/
def Draft.get_available_players (d : Draft) : List Player :=
  d.player_pool

/-- States the engine actually produces: the team list has one entry per
slot, there is at least one team, the 1-based pick counter stays in
`1..num_teams`, and the 1-based round counter is positive. -/
def Draft.WF (d : Draft) : Prop :=
  d.teams.length = d.num_teams ∧ 1 ≤ d.num_teams ∧
  1 ≤ d.current_pick_in_round ∧ d.current_pick_in_round ≤ d.num_teams ∧
  1 ≤ d.current_round

/-- Every player the draft instance tracks: the pool followed by all
rosters. -/
def allPlayers (d : Draft) : List Player :=
  d.player_pool ++ (d.teams.map Team.picks).flatten

lemma advance_pick_player_pool (d : Draft) :
    d.advance_pick.player_pool = d.player_pool := by
  unfold Draft.advance_pick; split <;> rfl

lemma advance_pick_teams (d : Draft) : d.advance_pick.teams = d.teams := by
  unfold Draft.advance_pick; split <;> rfl

lemma advance_pick_num_teams (d : Draft) :
    d.advance_pick.num_teams = d.num_teams := by
  unfold Draft.advance_pick; split <;> rfl

lemma advance_pick_num_rounds (d : Draft) :
    d.advance_pick.num_rounds = d.num_rounds := by
  unfold Draft.advance_pick; split <;> rfl

lemma advance_pick_user_team_index (d : Draft) :
    d.advance_pick.user_team_index = d.user_team_index := by
  unfold Draft.advance_pick; split <;> rfl

lemma advance_pick_rookie_names (d : Draft) :
    d.advance_pick.rookie_names = d.rookie_names := by
  unfold Draft.advance_pick; split <;> rfl

lemma advance_pick_round (d : Draft) :
    d.advance_pick.current_round =
      (if d.current_pick_in_round < d.num_teams then d.current_round
       else d.current_round + 1) := by
  unfold Draft.advance_pick; split <;> simp_all

lemma advance_pick_pick (d : Draft) :
    d.advance_pick.current_pick_in_round =
      (if d.current_pick_in_round < d.num_teams then
        d.current_pick_in_round + 1 else 1) := by
  unfold Draft.advance_pick; split <;> simp_all

lemma advance_pick_round_le (d : Draft) :
    d.current_round ≤ d.advance_pick.current_round := by
  rw [advance_pick_round]; split <;> omega

lemma advance_pick_wf {d : Draft} (h : d.WF) : d.advance_pick.WF := by
  obtain ⟨h1, h2, h3, h4, h5⟩ := h
  refine ⟨?_, ?_, ?_, ?_, ?_⟩ <;>
    simp only [advance_pick_teams, advance_pick_num_teams,
      advance_pick_pick, advance_pick_round] <;> first
  | exact h1
  | exact h2
  | (split <;> omega)

lemma allPlayers_advance_pick (d : Draft) :
    allPlayers d.advance_pick = allPlayers d := by
  simp [allPlayers, advance_pick_player_pool, advance_pick_teams]

lemma modifyTeams_length (ts : List Team) (i : ℕ) (p : Player) :
    (modifyTeams ts i p).length = ts.length := by
  induction ts generalizing i with
  | nil => rfl
  | cons t ts ih =>
    cases i with
    | zero => rfl
    | succ j => simpa [modifyTeams] using ih j

lemma modifyTeams_flatten {ts : List Team} {i : ℕ} (p : Player)
    (h : i < ts.length) :
    ((modifyTeams ts i p).map Team.picks).flatten.Perm
      (p :: (ts.map Team.picks).flatten) := by
  induction ts generalizing i with
  | nil => simp at h
  | cons t ts ih =>
    cases i with
    | zero =>
      simp only [modifyTeams, List.map_cons, List.flatten_cons, Team.add_player]
      rw [List.append_assoc, List.singleton_append]
      exact List.perm_middle
    | succ j =>
      simp only [modifyTeams, List.map_cons, List.flatten_cons]
      have hj : j < ts.length := by simpa using h
      exact (List.Perm.append_left t.picks (ih hj)).trans List.perm_middle

lemma get_pick_order_length (d : Draft) (rnd : ℕ) :
    (d.get_pick_order rnd).length = d.num_teams := by
  unfold Draft.get_pick_order; split <;> simp

lemma mem_get_pick_order {d : Draft} {rnd x : ℕ}
    (h : x ∈ d.get_pick_order rnd) : x < d.num_teams := by
  unfold Draft.get_pick_order at h
  split at h <;> simp_all [List.mem_range]

lemma get_current_team_index_lt {d : Draft} (h : d.WF) :
    d.get_current_team_index < d.num_teams := by
  obtain ⟨h1, h2, h3, h4, h5⟩ := h
  unfold Draft.get_current_team_index
  have hlen : d.current_pick_in_round - 1 <
      (d.get_pick_order d.current_round).length := by
    rw [get_pick_order_length]; omega
  rw [List.getD_eq_getElem _ _ hlen]
  exact mem_get_pick_order (List.getElem_mem hlen)

lemma findRemoveByName_none_iff (l : List Player) (nm : String) :
    findRemoveByName l nm = none ↔ ∀ p ∈ l, p.name ≠ nm := by
  induction l with
  | nil => simp [findRemoveByName]
  | cons p rest ih =>
    simp only [findRemoveByName]
    by_cases hp : p.name = nm
    · rw [if_pos hp]
      simp only [List.mem_cons]
      constructor
      · intro h; cases h
      · intro h; exact absurd hp (h p (Or.inl rfl))
    · rw [if_neg hp]
      cases hfr : findRemoveByName rest nm with
      | none =>
        simp only [List.mem_cons]
        constructor
        · intro _ q hq
          rcases hq with rfl | hq
          · exact hp
          · exact (ih.mp hfr) q hq
        · intro _; trivial
      | some pr =>
        simp only [List.mem_cons]
        constructor
        · intro h; cases h
        · intro h
          have hnone := ih.mpr (fun q hq => h q (Or.inr hq))
          rw [hfr] at hnone; cases hnone

lemma findRemoveByName_some {l : List Player} {nm : String}
    {p : Player} {rest : List Player}
    (h : findRemoveByName l nm = some (p, rest)) :
    p.name = nm ∧ p ∈ l ∧ l.Perm (p :: rest) := by
  induction l generalizing rest with
  | nil => simp [findRemoveByName] at h
  | cons q tl ih =>
    simp only [findRemoveByName] at h
    by_cases hq : q.name = nm
    · rw [if_pos hq] at h
      simp only [Option.some.injEq, Prod.mk.injEq] at h
      obtain ⟨rfl, rfl⟩ := h
      exact ⟨hq, List.mem_cons_self _ _, List.Perm.refl _⟩
    · rw [if_neg hq] at h
      cases hfr : findRemoveByName tl nm with
      | none => rw [hfr] at h; cases h
      | some pr =>
        obtain ⟨p', rest'⟩ := pr
        rw [hfr] at h
        simp only [Option.some.injEq, Prod.mk.injEq] at h
        obtain ⟨rfl, rfl⟩ := h
        obtain ⟨h1, h2, h3⟩ := ih hfr
        refine ⟨h1, List.mem_cons_of_mem _ h2, ?_⟩
        exact (h3.cons q).trans (List.Perm.swap _ _ _)

lemma maxByKey_eq_none_iff {α : Type} (key : α → ℚ) (l : List α) :
    maxByKey key l = none ↔ l = [] := by
  cases l with
  | nil => simp [maxByKey]
  | cons x xs =>
    simp only [maxByKey]
    constructor
    · intro h
      cases hm : maxByKey key xs with
      | none => simp only [hm] at h; cases h
      | some m =>
        simp only [hm] at h
        by_cases hc : key x < key m
        · rw [if_pos hc] at h; cases h
        · rw [if_neg hc] at h; cases h
    · intro h; cases h

lemma maxByKey_mem {α : Type} {key : α → ℚ} {l : List α} {m : α}
    (h : maxByKey key l = some m) : m ∈ l := by
  induction l generalizing m with
  | nil => cases h
  | cons x xs ih =>
    simp only [maxByKey] at h
    cases hm : maxByKey key xs with
    | none => simp only [hm] at h; cases h; exact List.mem_cons_self _ _
    | some m' =>
      simp only [hm] at h
      by_cases hc : key x < key m'
      · rw [if_pos hc] at h; cases h
        exact List.mem_cons_of_mem _ (ih hm)
      · rw [if_neg hc] at h; cases h
        exact List.mem_cons_self _ _

lemma maxByKey_le {α : Type} {key : α → ℚ} {l : List α} {m : α}
    (h : maxByKey key l = some m) : ∀ x ∈ l, key x ≤ key m := by
  induction l generalizing m with
  | nil => cases h
  | cons x xs ih =>
    simp only [maxByKey] at h
    cases hm : maxByKey key xs with
    | none =>
      simp only [hm] at h; cases h
      have hnil : xs = [] := (maxByKey_eq_none_iff key xs).mp hm
      subst hnil
      intro y hy
      rcases List.mem_cons.mp hy with rfl | hy
      · exact le_refl _
      · cases hy
    | some m' =>
      simp only [hm] at h
      by_cases hc : key x < key m'
      · rw [if_pos hc] at h; cases h
        intro y hy
        rcases List.mem_cons.mp hy with rfl | hy
        · exact le_of_lt hc
        · exact ih hm y hy
      · rw [if_neg hc] at h; cases h
        intro y hy
        rcases List.mem_cons.mp hy with rfl | hy
        · exact le_refl _
        · exact le_trans (ih hm y hy) (le_of_not_lt hc)

lemma mem_of_mem_enumFrom {α : Type} {l : List α} {n i : ℕ} {a : α}
    (h : (i, a) ∈ l.enumFrom n) : a ∈ l := by
  induction l generalizing n with
  | nil => cases h
  | cons x xs ih =>
    rcases List.mem_cons.mp h with he | he
    · cases he; exact List.mem_cons_self _ _
    · exact List.mem_cons_of_mem _ (ih he)

lemma exists_enumFrom_of_mem {α : Type} {l : List α} {a : α}
    (h : a ∈ l) (n : ℕ) : ∃ i, (i, a) ∈ l.enumFrom n := by
  induction l generalizing n with
  | nil => cases h
  | cons x xs ih =>
    rcases List.mem_cons.mp h with rfl | hx
    · exact ⟨n, List.mem_cons_self _ _⟩
    · obtain ⟨i, hi⟩ := ih hx (n + 1)
      exact ⟨i, List.mem_cons_of_mem _ hi⟩

lemma make_bot_pick_some {d d' : Draft} {p : Player}
    (h : d.make_bot_pick = (some p, d')) :
    ∃ tail, d.player_pool = p :: tail ∧
      d' = ({ d with
              player_pool := tail
              teams := modifyTeams d.teams d.get_current_team_index p }
            : Draft).advance_pick := by
  unfold Draft.make_bot_pick Draft.pop_best_available at h
  cases hp : d.player_pool with
  | nil => simp only [hp] at h; cases h
  | cons a tail =>
    simp only [hp, Prod.mk.injEq, Option.some.injEq] at h
    obtain ⟨rfl, rfl⟩ := h
    exact ⟨tail, rfl, rfl⟩

lemma make_bot_pick_empty {d : Draft} (h : d.player_pool = []) :
    d.make_bot_pick = (none, d.advance_pick) := by
  unfold Draft.make_bot_pick Draft.pop_best_available
  simp only [h]

lemma make_bot_pick_with_prefs_ok {d d' : Draft} {p : Player}
    {rb qb rk : ℚ} {fav : Option String} {tp sw rf : ℚ} {la : ℕ} {nf : ℕ → ℚ}
    (h : d.make_bot_pick_with_prefs rb qb rk fav tp sw rf la nf
        = (Except.ok (some p), d')) :
    p ∈ d.player_pool ∧
      d' = ({ d with
              player_pool := d.player_pool.erase p
              teams := modifyTeams d.teams d.get_current_team_index p }
            : Draft).advance_pick := by
  unfold Draft.make_bot_pick_with_prefs at h
  by_cases hp : d.player_pool = []
  · rw [if_pos hp] at h
    simp at h
  · rw [if_neg hp] at h
    cases hm : maxByKey
        (fun ip => d.score_player_for_prefs ip.2 rb qb rk fav tp sw rf (nf ip.1))
        (d.player_pool.take la).enum with
    | none => simp only [hm] at h; simp at h
    | some best =>
      obtain ⟨i, b⟩ := best
      simp only [hm, Prod.mk.injEq, Except.ok.injEq, Option.some.injEq] at h
      obtain ⟨rfl, rfl⟩ := h
      have hmem : b ∈ d.player_pool.take la :=
        mem_of_mem_enumFrom (maxByKey_mem hm)
      exact ⟨List.take_subset la d.player_pool hmem, rfl⟩

lemma make_user_pick_ok {d d' : Draft} {p : Player} {nm : String}
    (h : d.make_user_pick nm = (Except.ok (some p), d')) :
    d.get_current_team_index = d.user_team_index ∧ p.name = nm ∧
      p ∈ d.player_pool ∧
      ∃ rest, findRemoveByName d.player_pool nm = some (p, rest) ∧
        d.player_pool.Perm (p :: rest) ∧
        d' = ({ d with
                player_pool := rest
                teams := modifyTeams d.teams d.get_current_team_index p }
              : Draft).advance_pick := by
  unfold Draft.make_user_pick at h
  by_cases ht : d.get_current_team_index ≠ d.user_team_index
  · rw [if_pos ht] at h
    simp at h
  · rw [if_neg ht] at h
    push_neg at ht
    cases hfr : findRemoveByName d.player_pool nm with
    | none => simp only [hfr] at h; simp at h
    | some pr =>
      obtain ⟨q, rest⟩ := pr
      simp only [hfr, Prod.mk.injEq, Except.ok.injEq, Option.some.injEq] at h
      obtain ⟨rfl, rfl⟩ := h
      obtain ⟨h1, h2, h3⟩ := findRemoveByName_some hfr
      exact ⟨ht, h1, h2, rest, rfl, h3, rfl⟩

/-- One successful pick: any of the three pick operations returning a
player. -/
inductive Step : Draft → Draft → Prop where
  | bot {d d' : Draft} {p : Player}
      (h : d.make_bot_pick = (some p, d')) : Step d d'
  | botPrefs {d d' : Draft} {p : Player} (rb qb rk : ℚ) (fav : Option String)
      (tp sw rf : ℚ) (la : ℕ) (nf : ℕ → ℚ)
      (h : d.make_bot_pick_with_prefs rb qb rk fav tp sw rf la nf
          = (Except.ok (some p), d')) : Step d d'
  | user {d d' : Draft} {p : Player} (nm : String)
      (h : d.make_user_pick nm = (Except.ok (some p), d')) : Step d d'

/-- Every successful pick moves one player out of the pool into the roster
of the team on the clock, then advances the sequencer. -/
lemma Step.decomp {d d' : Draft} (h : Step d d') :
    ∃ (q : Player) (pool1 : List Player),
      d.player_pool.Perm (q :: pool1) ∧
      d' = ({ d with
              player_pool := pool1
              teams := modifyTeams d.teams d.get_current_team_index q }
            : Draft).advance_pick := by
  cases h with
  | bot h =>
    obtain ⟨tail, hpool, hd⟩ := make_bot_pick_some h
    exact ⟨_, tail, hpool ▸ List.Perm.refl _, hd⟩
  | botPrefs rb qb rk fav tp sw rf la nf h =>
    obtain ⟨hmem, hd⟩ := make_bot_pick_with_prefs_ok h
    exact ⟨_, _, List.perm_cons_erase hmem, hd⟩
  | user nm h =>
    obtain ⟨_, _, _, rest, _, hperm, hd⟩ := make_user_pick_ok h
    exact ⟨_, rest, hperm, hd⟩

lemma Step.static_fields {d d' : Draft} (h : Step d d') :
    d'.num_teams = d.num_teams ∧ d'.num_rounds = d.num_rounds ∧
      d'.user_team_index = d.user_team_index ∧
      d'.rookie_names = d.rookie_names ∧
      d'.teams.length = d.teams.length := by
  obtain ⟨q, pool1, _, rfl⟩ := h.decomp
  refine ⟨?_, ?_, ?_, ?_, ?_⟩ <;>
    simp [advance_pick_num_teams, advance_pick_num_rounds,
      advance_pick_user_team_index, advance_pick_rookie_names,
      advance_pick_teams, modifyTeams_length]

lemma Step.seq_advance {d d' : Draft} (h : Step d d') :
    d'.current_round =
        (if d.current_pick_in_round < d.num_teams then d.current_round
         else d.current_round + 1) ∧
      d'.current_pick_in_round =
        (if d.current_pick_in_round < d.num_teams then
          d.current_pick_in_round + 1 else 1) := by
  obtain ⟨q, pool1, _, rfl⟩ := h.decomp
  exact ⟨advance_pick_round _, advance_pick_pick _⟩

lemma Step.wf_step {d d' : Draft} (h : Step d d') (hwf : d.WF) : d'.WF := by
  obtain ⟨q, pool1, _, rfl⟩ := h.decomp
  apply advance_pick_wf
  obtain ⟨h1, h2, h3, h4, h5⟩ := hwf
  exact ⟨by simpa [modifyTeams_length] using h1, h2, h3, h4, h5⟩

lemma Step.perm_step {d d' : Draft} (h : Step d d') (hwf : d.WF) :
    (allPlayers d').Perm (allPlayers d) := by
  obtain ⟨q, pool1, hperm, rfl⟩ := h.decomp
  rw [allPlayers_advance_pick]
  have hidx : d.get_current_team_index < d.teams.length := by
    rw [hwf.1]; exact get_current_team_index_lt hwf
  show List.Perm
    (pool1 ++
      ((modifyTeams d.teams d.get_current_team_index q).map Team.picks).flatten)
    (d.player_pool ++ (d.teams.map Team.picks).flatten)
  exact ((List.Perm.append_left pool1 (modifyTeams_flatten q hidx)).trans
    List.perm_middle).trans (List.Perm.append_right _ hperm.symm)

/-- `k` successful picks in a row. -/
inductive ReachN : Draft → ℕ → Draft → Prop where
  | refl (d : Draft) : ReachN d 0 d
  | step {d d' d'' : Draft} {k : ℕ} (hr : ReachN d k d') (hs : Step d' d'') :
      ReachN d (k + 1) d''

lemma ReachN.wf_reach {d0 d : Draft} {k : ℕ} (hr : ReachN d0 k d) (h0 : d0.WF) :
    d.WF := by
  induction hr with
  | refl => exact h0
  | step hr hs ih => exact hs.wf_step ih

lemma ReachN.static_reach {d0 d : Draft} {k : ℕ} (hr : ReachN d0 k d) :
    d.num_teams = d0.num_teams ∧ d.num_rounds = d0.num_rounds ∧
      d.user_team_index = d0.user_team_index := by
  induction hr with
  | refl => exact ⟨rfl, rfl, rfl⟩
  | step hr hs ih =>
    obtain ⟨s1, s2, s3, _, _⟩ := hs.static_fields
    exact ⟨s1.trans ih.1, s2.trans ih.2.1, s3.trans ih.2.2⟩

lemma ReachN.perm_reach {d0 d : Draft} {k : ℕ} (hr : ReachN d0 k d) (h0 : d0.WF) :
    (allPlayers d).Perm (allPlayers d0) := by
  induction hr with
  | refl => exact List.Perm.refl _
  | step hr hs ih => exact (hs.perm_step (hr.wf_reach h0)).trans ih

/-- After `k` successful picks from a fresh sequencer the round and the
pick-in-round counters are pure functions of `k` and the team count. -/
lemma ReachN.seq_reach {d0 d : Draft} {k : ℕ} (hr : ReachN d0 k d) (h0 : d0.WF)
    (hr1 : d0.current_round = 1) (hp1 : d0.current_pick_in_round = 1) :
    d.current_round = k / d0.num_teams + 1 ∧
      d.current_pick_in_round = k % d0.num_teams + 1 := by
  induction hr with
  | refl => rw [hr1, hp1]; simp
  | step hr hs ih =>
    rename_i dm dn j
    obtain ⟨ihr, ihp⟩ := ih
    obtain ⟨hsr, hsp⟩ := hs.seq_advance
    have hN := hr.static_reach.1
    have hNpos : 0 < d0.num_teams := h0.2.1
    have hmod : j % d0.num_teams < d0.num_teams := Nat.mod_lt _ hNpos
    have hdm := Nat.div_add_mod j d0.num_teams
    rw [hsr, hsp, ihr, ihp, hN]
    by_cases hc : j % d0.num_teams + 1 < d0.num_teams
    · have key : (j + 1) / d0.num_teams = j / d0.num_teams ∧
          (j + 1) % d0.num_teams = j % d0.num_teams + 1 :=
        (Nat.div_mod_unique hNpos).mpr ⟨by linarith, hc⟩
      rw [if_pos hc, if_pos hc, key.1, key.2]
      exact ⟨rfl, rfl⟩
    · have key : (j + 1) / d0.num_teams = j / d0.num_teams + 1 ∧
          (j + 1) % d0.num_teams = 0 :=
        (Nat.div_mod_unique hNpos).mpr ⟨by
          have hexp : d0.num_teams * (j / d0.num_teams + 1) =
              d0.num_teams * (j / d0.num_teams) + d0.num_teams := by ring
          have hEq : j % d0.num_teams + 1 = d0.num_teams :=
            Nat.le_antisymm (by omega) (le_of_not_lt hc)
          linarith, hNpos⟩
      rw [if_neg hc, if_neg hc, key.1, key.2]
      exact ⟨rfl, rfl⟩

lemma insertByADP_perm (r : CatalogRow) (l : List CatalogRow) :
    (insertByADP r l).Perm (r :: l) := by
  induction l with
  | nil => exact List.Perm.refl _
  | cons x xs ih =>
    unfold insertByADP
    split
    · exact List.Perm.refl _
    · exact (ih.cons x).trans (List.Perm.swap _ _ _)

lemma sortByADP_perm (l : List CatalogRow) : (sortByADP l).Perm l := by
  induction l with
  | nil => exact List.Perm.refl _
  | cons x xs ih => exact (insertByADP_perm x (sortByADP xs)).trans (ih.cons x)

lemma init_pool_length (rows : List CatalogRow) (hc : Bool) (N R U : ℕ) :
    (Draft.init rows hc N R U).player_pool.length = rows.length := by
  simp [Draft.init, (sortByADP_perm rows).length_eq]

lemma flatten_replicate_nil (n : ℕ) :
    (List.replicate n ([] : List Player)).flatten = [] := by
  induction n with
  | zero => rfl
  | succ m ih => simp [List.replicate, ih]

lemma init_teams_picks (rows : List CatalogRow) (hc : Bool) (N R U : ℕ) :
    ((Draft.init rows hc N R U).teams.map Team.picks) = List.replicate N [] := by
  simp only [Draft.init, List.map_map]
  have : (Team.picks ∘ fun i =>
      ({ name := "Team " ++ toString (i + 1), picks := [] } : Team)) =
        fun _ => ([] : List Player) := rfl
  rw [this, List.map_const', List.length_range]

lemma allPlayers_init (rows : List CatalogRow) (hc : Bool) (N R U : ℕ) :
    allPlayers (Draft.init rows hc N R U) =
      (Draft.init rows hc N R U).player_pool := by
  unfold allPlayers
  rw [init_teams_picks, flatten_replicate_nil, List.append_nil]

lemma init_wf (rows : List CatalogRow) (hc : Bool) {N : ℕ} (R U : ℕ)
    (hN : 1 ≤ N) : (Draft.init rows hc N R U).WF := by
  refine ⟨?_, hN, le_refl 1, hN, le_refl 1⟩
  simp [Draft.init]

/-- The `round_index` the scorer derives from `overall_pick` equals the
current round whenever the pick counter is in `1..num_teams`. -/
lemma round_index_eq {d : Draft} (h2 : 1 ≤ d.current_pick_in_round)
    (h3 : d.current_pick_in_round ≤ d.num_teams) (h5 : 1 ≤ d.current_round) :
    ((d.current_round - 1) * d.num_teams + d.current_pick_in_round - 1) /
        d.num_teams + 1 = d.current_round := by
  have hN : 1 ≤ d.num_teams := le_trans h2 h3
  have e1 : (d.current_round - 1) * d.num_teams + d.current_pick_in_round - 1 =
      (d.current_pick_in_round - 1) + d.num_teams * (d.current_round - 1) := by
    rw [Nat.add_sub_assoc h2, Nat.add_comm, Nat.mul_comm]
  rw [e1, Nat.add_mul_div_left _ _ (by omega : 0 < d.num_teams),
    Nat.div_eq_of_lt (by omega : d.current_pick_in_round - 1 < d.num_teams)]
  omega

/-- The deterministic scoring formula in the form the specification
states it: base desirability, position bias, rookie bias, favorite-team
bias, the QB/TE scarcity guard (keyed on the candidate's own position),
the RB/WR balance guard, and the stacking bonus — noise excluded, with
"round" read directly from `current_round`. -/
def specScore (d : Draft) (player : Player)
    (rb_pref qb_pref rookie_pref : ℚ) (fav_team : Option String)
    (team_pref stack_weight : ℚ) : ℚ :=
  let team := d.currentTeam
  (-player.adp
  + (if player.position = "RB" then rb_pref else 0)
  + (if player.position = "QB" then qb_pref else 0)
  + (if d.rookie_names.contains player.name then rookie_pref else 0)
  + (match fav_team with
     | some t => if player.team = t then team_pref else 0
     | none => 0)
  - (if player.position = "QB" ∨ player.position = "TE" then
       (if 2 ≤ posCount team player.position then 1000000
        else if 1 ≤ posCount team player.position ∧ d.current_round ≤ 6 then 8
        else 0)
     else 0)
  - (if player.position = "WR" then
       (if 4 ≤ posCount team "WR" ∧ posCount team "RB" = 0 then 12
        else if 4 ≤ posCount team "WR" ∧ posCount team "RB" ≤ 1 ∧
            d.current_round ≤ 8 then 6
        else 0)
     else 0)
  - (if player.position = "RB" then
       (if 4 ≤ posCount team "RB" ∧ posCount team "WR" = 0 then 12
        else if 4 ≤ posCount team "RB" ∧ posCount team "WR" ≤ 1 ∧
            d.current_round ≤ 8 then 6
        else 0)
     else 0)
  + (if ((player.position = "WR" ∨ player.position = "TE") ∧
          ((team.picks.filter (fun p => p.position == "QB")).map
            (fun p => p.team)).contains player.team = true) ∨
        (player.position = "QB" ∧
          ((team.picks.filter
              (fun p => p.position == "WR" || p.position == "TE")).map
            (fun p => p.team)).contains player.team = true)
     then stack_weight else 0))

/-- The noise amplitude, with the round read from `current_round`. -/
def specNoiseScale (d : Draft) : ℚ :=
  min (1 + (1 / 2) * ((d.current_round : ℚ) - 1)) 4

/-- Two position-keyed terms with a common body collapse into one term
keyed on the candidate's own position. -/
lemma ite_scarcity_merge {σ : Type} [DecidableEq σ] (pos a b : σ)
    (hab : a ≠ b) (f : σ → ℚ) :
    ((if pos = a then f a else 0) + if pos = b then f b else 0)
      = if pos = a ∨ pos = b then f pos else 0 := by
  by_cases h1 : pos = a
  · subst h1
    rw [if_pos rfl, if_neg hab, if_pos (Or.inl rfl)]
    ring
  · by_cases h2 : pos = b
    · subst h2
      rw [if_neg h1, if_pos rfl, if_pos (Or.inr rfl)]
      ring
    · rw [if_neg h1, if_neg h2, if_neg (fun hor => hor.elim h1 h2)]
      ring

/-- Two mutually exclusive bonus terms collapse into one disjunction. -/
lemma ite_add_or {A B : Prop} [Decidable A] [Decidable B]
    (h : ¬(A ∧ B)) (w : ℚ) :
    ((if A then w else 0) + if B then w else 0) = if A ∨ B then w else 0 := by
  by_cases hA : A
  · rw [if_pos hA, if_neg (fun hB => h ⟨hA, hB⟩), if_pos (Or.inl hA)]
    ring
  · by_cases hB : B
    · rw [if_neg hA, if_pos hB, if_pos (Or.inr hB)]
      ring
    · rw [if_neg hA, if_neg hB, if_neg (fun hor => hor.elim hA hB)]
      ring

/-- The scorer computes exactly the specification formula plus the noise
term, for any state whose pick counter is in range. -/
lemma score_eq_specScore (d : Draft) (player : Player)
    (rb qb rk : ℚ) (fav : Option String) (tp sw rf u : ℚ)
    (h2 : 1 ≤ d.current_pick_in_round)
    (h3 : d.current_pick_in_round ≤ d.num_teams)
    (h5 : 1 ≤ d.current_round) :
    d.score_player_for_prefs player rb qb rk fav tp sw rf u =
      specScore d player rb qb rk fav tp sw + u * specNoiseScale d * rf := by
  have hri := round_index_eq h2 h3 h5
  have hscar := ite_scarcity_merge player.position "QB" "TE" (by decide)
    (fun x => if 2 ≤ posCount d.currentTeam x then (1000000 : ℚ)
      else if 1 ≤ posCount d.currentTeam x ∧ d.current_round ≤ 6 then 8
      else 0)
  beta_reduce at hscar
  have hstk := ite_add_or (A := (player.position = "WR" ∨
      player.position = "TE") ∧
      ((d.currentTeam.picks.filter (fun p => p.position == "QB")).map
        (fun p => p.team)).contains player.team = true)
    (B := player.position = "QB" ∧
      ((d.currentTeam.picks.filter
          (fun p => p.position == "WR" || p.position == "TE")).map
        (fun p => p.team)).contains player.team = true)
    (by
      rintro ⟨⟨hwt, _⟩, hq, _⟩
      rcases hwt with hw | ht
      · exact absurd (hw ▸ hq) (by decide)
      · exact absurd (ht ▸ hq) (by decide)) sw
  simp only [Draft.score_player_for_prefs, specScore, specNoiseScale]
  rw [hri, ← hscar, ← hstk]
  ring

/-- The candidate would be a 3rd QB (resp. 3rd TE) for the team on the
clock — the situation the scarcity guard's huge penalty targets. -/
def overcap (d : Draft) (p : Player) : Prop :=
  (p.position = "QB" ∧ 2 ≤ posCount d.currentTeam "QB") ∨
    (p.position = "TE" ∧ 2 ≤ posCount d.currentTeam "TE")

instance (d : Draft) (p : Player) : Decidable (overcap d p) := by
  unfold overcap
  infer_instance

lemma specNoiseScale_bounds (d : Draft) :
    0 ≤ specNoiseScale d ∧ specNoiseScale d ≤ 4 := by
  unfold specNoiseScale
  constructor
  · have h0 : (0 : ℚ) ≤ (d.current_round : ℚ) := Nat.cast_nonneg _
    apply le_min <;> linarith
  · exact min_le_right _ _

lemma noise_abs_le {u rf : ℚ} (hu : |u| ≤ 1) (hrf : |rf| ≤ 5 / 2)
    (d : Draft) : |u * specNoiseScale d * rf| ≤ 10 := by
  obtain ⟨hn0, hn4⟩ := specNoiseScale_bounds d
  rw [abs_mul, abs_mul]
  have h1 : |specNoiseScale d| ≤ 4 := abs_le.mpr ⟨by linarith, hn4⟩
  have e1 : |u| * |specNoiseScale d| ≤ 1 * 4 :=
    mul_le_mul hu h1 (abs_nonneg _) zero_le_one
  have e2 : |u| * |specNoiseScale d| * |rf| ≤ 4 * (5 / 2) := by
    have h4 : |u| * |specNoiseScale d| ≤ 4 := by linarith
    exact mul_le_mul h4 hrf (abs_nonneg _) (by norm_num)
  linarith

lemma specScore_le_of_overcap {d : Draft} {player : Player}
    {rb qb rk : ℚ} {fav : Option String} {tp sw : ℚ}
    (hadp : 0 ≤ player.adp)
    (hrb : |rb| ≤ 5) (hqb : |qb| ≤ 5) (hrk : |rk| ≤ 5) (htp : |tp| ≤ 5)
    (hsw : |sw| ≤ 2) (hoc : overcap d player) :
    specScore d player rb qb rk fav tp sw ≤ 22 - 1000000 := by
  obtain ⟨hrb1, hrb2⟩ := abs_le.mp hrb
  obtain ⟨hqb1, hqb2⟩ := abs_le.mp hqb
  obtain ⟨hrk1, hrk2⟩ := abs_le.mp hrk
  obtain ⟨htp1, htp2⟩ := abs_le.mp htp
  obtain ⟨hsw1, hsw2⟩ := abs_le.mp hsw
  have tSC : (if player.position = "QB" ∨ player.position = "TE" then
      (if 2 ≤ posCount d.currentTeam player.position then (1000000 : ℚ)
       else if 1 ≤ posCount d.currentTeam player.position ∧
          d.current_round ≤ 6 then 8
       else 0)
      else 0) = 1000000 := by
    rcases hoc with ⟨hpos, hcnt⟩ | ⟨hpos, hcnt⟩
    · rw [if_pos (Or.inl hpos), if_pos (by rw [hpos]; exact hcnt)]
    · rw [if_pos (Or.inr hpos), if_pos (by rw [hpos]; exact hcnt)]
  cases fav with
  | none =>
    simp only [specScore, tSC]
    have t1 : (if player.position = "RB" then rb else 0) ≤ 5 := by
      split <;> linarith
    have t2 : (if player.position = "QB" then qb else 0) ≤ 5 := by
      split <;> linarith
    have t3 : (if d.rookie_names.contains player.name then rk else 0) ≤ 5 := by
      split <;> linarith
    have tBW : (0 : ℚ) ≤
        (if player.position = "WR" then
          (if 4 ≤ posCount d.currentTeam "WR" ∧
              posCount d.currentTeam "RB" = 0 then 12
           else if 4 ≤ posCount d.currentTeam "WR" ∧
              posCount d.currentTeam "RB" ≤ 1 ∧ d.current_round ≤ 8 then 6
           else 0)
         else 0) := by
      split_ifs <;> norm_num
    have tBR : (0 : ℚ) ≤
        (if player.position = "RB" then
          (if 4 ≤ posCount d.currentTeam "RB" ∧
              posCount d.currentTeam "WR" = 0 then 12
           else if 4 ≤ posCount d.currentTeam "RB" ∧
              posCount d.currentTeam "WR" ≤ 1 ∧ d.current_round ≤ 8 then 6
           else 0)
         else 0) := by
      split_ifs <;> norm_num
    have tST : (if ((player.position = "WR" ∨ player.position = "TE") ∧
          ((d.currentTeam.picks.filter (fun p => p.position == "QB")).map
            (fun p => p.team)).contains player.team = true) ∨
        (player.position = "QB" ∧
          ((d.currentTeam.picks.filter
              (fun p => p.position == "WR" || p.position == "TE")).map
            (fun p => p.team)).contains player.team = true)
        then sw else 0) ≤ 2 := by
      split <;> linarith
    linarith
  | some t =>
    simp only [specScore, tSC]
    have t1 : (if player.position = "RB" then rb else 0) ≤ 5 := by
      split <;> linarith
    have t2 : (if player.position = "QB" then qb else 0) ≤ 5 := by
      split <;> linarith
    have t3 : (if d.rookie_names.contains player.name then rk else 0) ≤ 5 := by
      split <;> linarith
    have t4 : (if player.team = t then tp else 0) ≤ 5 := by
      split <;> linarith
    have tBW : (0 : ℚ) ≤
        (if player.position = "WR" then
          (if 4 ≤ posCount d.currentTeam "WR" ∧
              posCount d.currentTeam "RB" = 0 then 12
           else if 4 ≤ posCount d.currentTeam "WR" ∧
              posCount d.currentTeam "RB" ≤ 1 ∧ d.current_round ≤ 8 then 6
           else 0)
         else 0) := by
      split_ifs <;> norm_num
    have tBR : (0 : ℚ) ≤
        (if player.position = "RB" then
          (if 4 ≤ posCount d.currentTeam "RB" ∧
              posCount d.currentTeam "WR" = 0 then 12
           else if 4 ≤ posCount d.currentTeam "RB" ∧
              posCount d.currentTeam "WR" ≤ 1 ∧ d.current_round ≤ 8 then 6
           else 0)
         else 0) := by
      split_ifs <;> norm_num
    have tST : (if ((player.position = "WR" ∨ player.position = "TE") ∧
          ((d.currentTeam.picks.filter (fun p => p.position == "QB")).map
            (fun p => p.team)).contains player.team = true) ∨
        (player.position = "QB" ∧
          ((d.currentTeam.picks.filter
              (fun p => p.position == "WR" || p.position == "TE")).map
            (fun p => p.team)).contains player.team = true)
        then sw else 0) ≤ 2 := by
      split <;> linarith
    linarith

lemma specScore_ge_of_not_overcap {d : Draft} {player : Player}
    {rb qb rk : ℚ} {fav : Option String} {tp sw : ℚ}
    (hadp : player.adp ≤ 10000)
    (hrb : |rb| ≤ 5) (hqb : |qb| ≤ 5) (hrk : |rk| ≤ 5) (htp : |tp| ≤ 5)
    (hsw : |sw| ≤ 2) (hoc : ¬ overcap d player) :
    -10054 ≤ specScore d player rb qb rk fav tp sw := by
  obtain ⟨hrb1, hrb2⟩ := abs_le.mp hrb
  obtain ⟨hqb1, hqb2⟩ := abs_le.mp hqb
  obtain ⟨hrk1, hrk2⟩ := abs_le.mp hrk
  obtain ⟨htp1, htp2⟩ := abs_le.mp htp
  obtain ⟨hsw1, hsw2⟩ := abs_le.mp hsw
  have tSC : (if player.position = "QB" ∨ player.position = "TE" then
      (if 2 ≤ posCount d.currentTeam player.position then (1000000 : ℚ)
       else if 1 ≤ posCount d.currentTeam player.position ∧
          d.current_round ≤ 6 then 8
       else 0)
      else 0) ≤ 8 := by
    by_cases hp : player.position = "QB" ∨ player.position = "TE"
    · rw [if_pos hp]
      have hcnt : ¬ 2 ≤ posCount d.currentTeam player.position := by
        rcases hp with h | h
        · exact fun hc => hoc (Or.inl ⟨h, by rwa [h] at hc⟩)
        · exact fun hc => hoc (Or.inr ⟨h, by rwa [h] at hc⟩)
      rw [if_neg hcnt]
      split <;> norm_num
    · rw [if_neg hp]; norm_num
  have tBW : (if player.position = "WR" then
        (if 4 ≤ posCount d.currentTeam "WR" ∧
            posCount d.currentTeam "RB" = 0 then (12 : ℚ)
         else if 4 ≤ posCount d.currentTeam "WR" ∧
            posCount d.currentTeam "RB" ≤ 1 ∧ d.current_round ≤ 8 then 6
         else 0)
       else 0) ≤ 12 := by
    split_ifs <;> norm_num
  have tBR : (if player.position = "RB" then
        (if 4 ≤ posCount d.currentTeam "RB" ∧
            posCount d.currentTeam "WR" = 0 then (12 : ℚ)
         else if 4 ≤ posCount d.currentTeam "RB" ∧
            posCount d.currentTeam "WR" ≤ 1 ∧ d.current_round ≤ 8 then 6
         else 0)
       else 0) ≤ 12 := by
    split_ifs <;> norm_num
  have tST : -2 ≤ (if ((player.position = "WR" ∨ player.position = "TE") ∧
        ((d.currentTeam.picks.filter (fun p => p.position == "QB")).map
          (fun p => p.team)).contains player.team = true) ∨
      (player.position = "QB" ∧
        ((d.currentTeam.picks.filter
            (fun p => p.position == "WR" || p.position == "TE")).map
          (fun p => p.team)).contains player.team = true)
      then sw else 0) := by
    split <;> linarith
  have t1 : -5 ≤ (if player.position = "RB" then rb else 0) := by
    split <;> linarith
  have t2 : -5 ≤ (if player.position = "QB" then qb else 0) := by
    split <;> linarith
  have t3 : -5 ≤ (if d.rookie_names.contains player.name then rk else 0) := by
    split <;> linarith
  cases fav with
  | none =>
    simp only [specScore]
    linarith
  | some t =>
    have t4 : -5 ≤ (if player.team = t then tp else 0) := by
      split <;> linarith
    simp only [specScore]
    linarith

lemma init_num_teams (rows : List CatalogRow) (hc : Bool) (N R U : ℕ) :
    (Draft.init rows hc N R U).num_teams = N := rfl

lemma init_num_rounds (rows : List CatalogRow) (hc : Bool) (N R U : ℕ) :
    (Draft.init rows hc N R U).num_rounds = R := rfl

/-- C5: for every round `r ≥ 1` and team count `N ≥ 1`, the pick order is
the identity permutation `[0, ..., N-1]` for odd rounds and its reverse
for even rounds, and the order of round `r` equals the order of round
`r - 2` for every `r > 2`. -/
theorem snake_order (d : Draft) (r : ℕ) (hN : 1 ≤ d.num_teams)
    (hr : 1 ≤ r) :
    (r % 2 = 1 → d.get_pick_order r = List.range d.num_teams) ∧
      (r % 2 = 0 → d.get_pick_order r = (List.range d.num_teams).reverse) ∧
      (2 < r → d.get_pick_order r = d.get_pick_order (r - 2)) := by
  refine ⟨?_, ?_, ?_⟩
  · intro h
    unfold Draft.get_pick_order
    rw [if_neg (by omega)]
  · intro h
    unfold Draft.get_pick_order
    rw [if_pos h]
  · intro h
    unfold Draft.get_pick_order
    have he : (r - 2) % 2 = r % 2 := by omega
    rw [he]

theorem snake_order_witness :
    ((Draft.init [] false 3 2 0).get_pick_order 4
        = (List.range 3).reverse) ∧
      ((Draft.init [] false 3 2 0).get_pick_order 5 = List.range 3) ∧
      ((Draft.init [] false 3 2 0).get_pick_order 4
        = (Draft.init [] false 3 2 0).get_pick_order 2) :=
  ⟨(snake_order (Draft.init [] false 3 2 0) 4 (by decide) (by decide)).2.1
      (by decide),
    (snake_order (Draft.init [] false 3 2 0) 5 (by decide) (by decide)).1
      (by decide),
    (snake_order (Draft.init [] false 3 2 0) 4 (by decide) (by decide)).2.2
      (by decide)⟩

/-- C6: after any `k` successful picks from a fresh draft with
`k < N * numRounds`, the current team index is
`_get_pick_order(⌈(k+1)/N⌉)[k mod N]` (in ℕ, `⌈(k+1)/N⌉ = (k+N)/N`) —
a pure function of the pick count and the team count. -/
theorem turn_determinism (rows : List CatalogRow) (hc : Bool)
    (N R U k : ℕ) (d : Draft) (hN : 1 ≤ N)
    (hreach : ReachN (Draft.init rows hc N R U) k d) (hk : k < N * R) :
    d.get_current_team_index =
      (d.get_pick_order ((k + N) / N)).getD (k % N) 0 := by
  have hseq := hreach.seq_reach (init_wf rows hc R U hN) rfl rfl
  rw [init_num_teams] at hseq
  unfold Draft.get_current_team_index
  rw [hseq.1, hseq.2, Nat.add_div_right k (by omega : 0 < N),
    Nat.add_sub_cancel]

theorem turn_determinism_witness :
    (Draft.init [] false 2 1 0).get_current_team_index =
      ((Draft.init [] false 2 1 0).get_pick_order ((0 + 2) / 2)).getD
        (0 % 2) 0 :=
  turn_determinism [] false 2 1 0 0 (Draft.init [] false 2 1 0)
    (by decide) (ReachN.refl _) (by decide)

/-- C7: after exactly `numTeams * numRounds` successful picks from a
fresh draft, `is_finished` is true, and it stays true after any number
of further sequencer advances. -/
theorem monotonic_termination (rows : List CatalogRow) (hc : Bool)
    (N R U : ℕ) (d : Draft) (hN : 1 ≤ N)
    (hreach : ReachN (Draft.init rows hc N R U) (N * R) d) (j : ℕ) :
    (Draft.advance_pick^[j] d).is_finished = true := by
  have hseq := hreach.seq_reach (init_wf rows hc R U hN) rfl rfl
  rw [init_num_teams] at hseq
  have hstat := hreach.static_reach
  have hnr : d.num_rounds = R := by rw [hstat.2.1, init_num_rounds]
  have hround : d.current_round = R + 1 := by
    rw [hseq.1, Nat.mul_div_cancel_left R (by omega : 0 < N)]
  have key : ∀ (m : ℕ) (e : Draft), e.num_rounds < e.current_round →
      (Draft.advance_pick^[m] e).is_finished = true := by
    intro m
    induction m with
    | zero =>
      intro e he
      simpa [Draft.is_finished] using he
    | succ m ih =>
      intro e he
      rw [Function.iterate_succ_apply]
      apply ih
      rw [advance_pick_num_rounds, advance_pick_round]
      split <;> omega
  exact key j d (by rw [hnr, hround]; omega)

def c7row : CatalogRow := ⟨"A", "RB", "SF", 1, 0⟩

def c7d0 : Draft := Draft.init [c7row] false 1 1 0

def c7p : Player := ⟨"A", "RB", "SF", 1⟩

def c7d1 : Draft := (c7d0.make_bot_pick).2

theorem monotonic_termination_witness :
    (Draft.advance_pick^[2] c7d1).is_finished = true :=
  monotonic_termination [c7row] false 1 1 0 c7d1 (by decide)
    (ReachN.step (ReachN.refl c7d0)
      (Step.bot (p := c7p) (by with_unfolding_all decide))) 2

/-- C1: from a freshly constructed draft, along any sequence of
successful picks, pool size plus the sum of all roster sizes equals the
catalog size, and (for a duplicate-free catalog) no player occurs twice
across the pool and the rosters. -/
theorem conservation_of_players (rows : List CatalogRow) (hc : Bool)
    (N R U k : ℕ) (d : Draft) (hN : 1 ≤ N)
    (hreach : ReachN (Draft.init rows hc N R U) k d)
    (hnd : (Draft.init rows hc N R U).player_pool.Nodup) :
    d.player_pool.length + (d.teams.map (fun t => t.picks.length)).sum
        = rows.length ∧
      (d.player_pool ++ (d.teams.map Team.picks).flatten).Nodup := by
  have hperm := hreach.perm_reach (init_wf rows hc R U hN)
  rw [allPlayers_init] at hperm
  constructor
  · have hlen := hperm.length_eq
    rw [init_pool_length] at hlen
    unfold allPlayers at hlen
    rw [List.length_append, List.length_flatten, List.map_map] at hlen
    exact hlen
  · exact hperm.nodup_iff.mpr hnd

def c1rows : List CatalogRow :=
  [⟨"Alice", "WR-01", "KC", 2, 0⟩, ⟨"Bob", "QB-01", "BUF", 1, 1⟩]

theorem conservation_of_players_witness :
    (Draft.init c1rows true 2 1 0).player_pool.length +
        ((Draft.init c1rows true 2 1 0).teams.map
          (fun t => t.picks.length)).sum = c1rows.length ∧
      ((Draft.init c1rows true 2 1 0).player_pool ++
        ((Draft.init c1rows true 2 1 0).teams.map Team.picks).flatten).Nodup :=
  conservation_of_players c1rows true 2 1 0 0 (Draft.init c1rows true 2 1 0)
    (by decide) (ReachN.refl _) (by with_unfolding_all decide)

def c2d : Draft := Draft.init [] false 2 3 0

/-- C2 counterexample: `make_bot_pick` on an empty pool returns the
not-found signal but still advances the sequencer, so a failed pick does
not leave the sequencer state unchanged. -/
theorem failed_pick_atomicity_cex :
    (c2d.make_bot_pick).1 = none ∧
      c2d.current_pick_in_round = 1 ∧
      ((c2d.make_bot_pick).2).current_pick_in_round = 2 := by
  refine ⟨?_, rfl, ?_⟩ <;> with_unfolding_all decide

/-- C2 amended: failed `make_user_pick` (both error kinds) and failed
`make_bot_pick_with_prefs` leave the whole state unchanged; failed
`make_bot_pick` (empty pool) leaves the pool and every roster unchanged
but still advances the sequencer. -/
theorem failed_pick_atomicity_amended (d : Draft) (nm : String)
    (rb qb rk : ℚ) (fav : Option String) (tp sw rf : ℚ) (la : ℕ)
    (nf : ℕ → ℚ) :
    ((d.make_user_pick nm).1 = Except.error PickError.notUsersTurn →
        (d.make_user_pick nm).2 = d) ∧
      ((d.make_user_pick nm).1 = Except.ok none →
        (d.make_user_pick nm).2 = d) ∧
      ((d.make_bot_pick_with_prefs rb qb rk fav tp sw rf la nf).1
          = Except.ok none →
        (d.make_bot_pick_with_prefs rb qb rk fav tp sw rf la nf).2 = d) ∧
      ((d.make_bot_pick_with_prefs rb qb rk fav tp sw rf la nf).1
          = Except.error PickError.emptyMax →
        (d.make_bot_pick_with_prefs rb qb rk fav tp sw rf la nf).2 = d) ∧
      (d.player_pool = [] →
        (d.make_bot_pick).1 = none ∧
          (d.make_bot_pick).2 = d.advance_pick) := by
  refine ⟨?_, ?_, ?_, ?_, ?_⟩
  · intro h
    unfold Draft.make_user_pick at h ⊢
    by_cases ht : d.get_current_team_index ≠ d.user_team_index
    · rw [if_pos ht]
    · rw [if_neg ht] at h ⊢
      cases hfr : findRemoveByName d.player_pool nm with
      | none => rfl
      | some pr => simp only [hfr] at h; cases h
  · intro h
    unfold Draft.make_user_pick at h ⊢
    by_cases ht : d.get_current_team_index ≠ d.user_team_index
    · rw [if_pos ht] at h; cases h
    · rw [if_neg ht] at h ⊢
      cases hfr : findRemoveByName d.player_pool nm with
      | none => rfl
      | some pr => simp only [hfr] at h; obtain ⟨q, rest⟩ := pr; cases h
  · intro h
    unfold Draft.make_bot_pick_with_prefs at h ⊢
    by_cases hp : d.player_pool = []
    · rw [if_pos hp]
    · rw [if_neg hp] at h ⊢
      cases hm : maxByKey (fun ip => d.score_player_for_prefs ip.2 rb qb rk
          fav tp sw rf (nf ip.1)) (d.player_pool.take la).enum with
      | none => simp only [hm] at h; cases h
      | some best => simp only [hm] at h; cases h
  · intro h
    unfold Draft.make_bot_pick_with_prefs at h ⊢
    by_cases hp : d.player_pool = []
    · rw [if_pos hp] at h; cases h
    · rw [if_neg hp] at h ⊢
      cases hm : maxByKey (fun ip => d.score_player_for_prefs ip.2 rb qb rk
          fav tp sw rf (nf ip.1)) (d.player_pool.take la).enum with
      | none => simp only [hm]
      | some best => simp only [hm] at h; cases h
  · intro hp
    rw [make_bot_pick_empty hp]
    exact ⟨rfl, rfl⟩

def c2u : Draft := Draft.init [⟨"A", "RB", "SF", 1, 0⟩] false 2 3 0

theorem failed_pick_atomicity_amended_witness :
    ((c2u.make_user_pick "Zed").2 = c2u) ∧
      ((c2d.make_bot_pick_with_prefs 0 0 0 none 0 0 0 30 (fun _ => 0)).2
        = c2d) ∧
      ((c2d.make_bot_pick).1 = none ∧
        (c2d.make_bot_pick).2 = c2d.advance_pick) :=
  ⟨(failed_pick_atomicity_amended c2u "Zed" 0 0 0 none 0 0 0 30
      (fun _ => 0)).2.1 (by with_unfolding_all decide),
    (failed_pick_atomicity_amended c2d "x" 0 0 0 none 0 0 0 30
      (fun _ => 0)).2.2.1 (by with_unfolding_all decide),
    (failed_pick_atomicity_amended c2d "x" 0 0 0 none 0 0 0 30
      (fun _ => 0)).2.2.2.2 rfl⟩

/-- C3: for every candidate, profile and state (with an in-range pick
counter), the score minus its random-noise contribution equals the
specification's deterministic formula. -/
theorem scorer_formula (d : Draft) (player : Player) (rb qb rk : ℚ)
    (fav : Option String) (tp sw rf u : ℚ)
    (h2 : 1 ≤ d.current_pick_in_round)
    (h3 : d.current_pick_in_round ≤ d.num_teams)
    (h5 : 1 ≤ d.current_round) :
    d.score_player_for_prefs player rb qb rk fav tp sw rf u
        - u * specNoiseScale d * rf
      = specScore d player rb qb rk fav tp sw := by
  rw [score_eq_specScore d player rb qb rk fav tp sw rf u h2 h3 h5]
  ring

theorem scorer_formula_witness :
    c2u.score_player_for_prefs ⟨"B", "QB", "KC", 3⟩ 1 2 3 (some "KC") 4 5 6
          (1 / 2) - (1 / 2) * specNoiseScale c2u * 6
      = specScore c2u ⟨"B", "QB", "KC", 3⟩ 1 2 3 (some "KC") 4 5 :=
  scorer_formula c2u ⟨"B", "QB", "KC", 3⟩ 1 2 3 (some "KC") 4 5 6 (1 / 2)
    (by decide) (by decide) (by decide)

/-- C8: `make_user_pick` raises `NotUsersTurn` exactly when the current
team is not the user's; on the user's turn it returns not-found exactly
when no pool player matches the name, and on the first match it removes
that player, appends it to the user's roster, advances the sequencer and
returns the player. -/
theorem user_pick_spec (d : Draft) (nm : String) :
    ((d.make_user_pick nm = (Except.error PickError.notUsersTurn, d)) ↔
        d.get_current_team_index ≠ d.user_team_index) ∧
      (d.get_current_team_index = d.user_team_index →
        ((d.make_user_pick nm = (Except.ok none, d)) ↔
          ∀ p ∈ d.player_pool, p.name ≠ nm)) ∧
      (d.get_current_team_index = d.user_team_index →
        ∀ (p : Player) (rest : List Player),
          findRemoveByName d.player_pool nm = some (p, rest) →
          p.name = nm ∧ p ∈ d.player_pool ∧
            d.make_user_pick nm = (Except.ok (some p),
              ({ d with
                  player_pool := rest
                  teams := modifyTeams d.teams d.user_team_index p }
                : Draft).advance_pick)) ∧
      (d.get_current_team_index = d.user_team_index →
        (∃ p ∈ d.player_pool, p.name = nm) →
        ∃ p, (d.make_user_pick nm).1 = Except.ok (some p)) := by
  refine ⟨⟨?_, ?_⟩, ?_, ?_, ?_⟩
  · intro h
    unfold Draft.make_user_pick at h
    by_cases ht : d.get_current_team_index ≠ d.user_team_index
    · exact ht
    · exfalso
      rw [if_neg ht] at h
      cases hfr : findRemoveByName d.player_pool nm with
      | none => simp only [hfr] at h; simp at h
      | some pr =>
        obtain ⟨q, rest⟩ := pr
        simp only [hfr] at h
        simp at h
  · intro h
    unfold Draft.make_user_pick
    rw [if_pos h]
  · intro ht
    unfold Draft.make_user_pick
    rw [if_neg (fun hh => hh ht)]
    cases hfr : findRemoveByName d.player_pool nm with
    | none =>
      simp only [hfr]
      constructor
      · intro _
        exact (findRemoveByName_none_iff _ _).mp hfr
      · intro _
        trivial
    | some pr =>
      obtain ⟨q, rest⟩ := pr
      simp only [hfr]
      constructor
      · intro h
        simp at h
      · intro hall
        exfalso
        have hnone := (findRemoveByName_none_iff d.player_pool nm).mpr hall
        rw [hfr] at hnone
        cases hnone
  · intro ht p rest hfr
    obtain ⟨h1, h2, _⟩ := findRemoveByName_some hfr
    refine ⟨h1, h2, ?_⟩
    unfold Draft.make_user_pick
    rw [if_neg (fun hh => hh ht)]
    simp only [hfr]
    rw [ht]
  · intro ht hex
    cases hfr : findRemoveByName d.player_pool nm with
    | none =>
      obtain ⟨p, hp, hpn⟩ := hex
      exact absurd hpn ((findRemoveByName_none_iff _ _).mp hfr p hp)
    | some pr =>
      obtain ⟨q, rest⟩ := pr
      refine ⟨q, ?_⟩
      unfold Draft.make_user_pick
      rw [if_neg (fun hh => hh ht)]
      simp only [hfr]

def c8d : Draft := Draft.init c1rows true 2 1 0

def c8p : Player := ⟨"Bob", "QB", "BUF", 1⟩

theorem user_pick_spec_witness :
    c8p.name = "Bob" ∧ c8p ∈ c8d.player_pool ∧
      c8d.make_user_pick "Bob" = (Except.ok (some c8p),
        ({ c8d with
            player_pool := [⟨"Alice", "WR", "KC", 2⟩]
            teams := modifyTeams c8d.teams c8d.user_team_index c8p }
          : Draft).advance_pick) :=
  (user_pick_spec c8d "Bob").2.2.1 rfl c8p [⟨"Alice", "WR", "KC", 2⟩]
    (by with_unfolding_all decide)

def c9d : Draft := Draft.init [⟨"A", "RB", "SF", 1, 0⟩] false 2 3 0

/-- C9 counterexample: with a non-empty pool and an empty lookahead
window (`lookahead = 0`), `make_bot_pick_with_prefs` raises (Python's
`max()` on an empty sequence) instead of returning the not-found
signal. -/
theorem empty_window_cex :
    c9d.player_pool ≠ [] ∧
      (c9d.make_bot_pick_with_prefs 0 0 0 none 0 0 0 0 (fun _ => 0)).1
        = Except.error PickError.emptyMax := by
  constructor <;> with_unfolding_all decide

/-- C9 amended: the not-found signal is returned (without mutation)
exactly for an empty pool; a non-empty pool with an empty lookahead
window instead raises the `ValueError` of `max()` on an empty sequence
(also without mutation). -/
theorem empty_candidates_amended (d : Draft) (rb qb rk : ℚ)
    (fav : Option String) (tp sw rf : ℚ) (la : ℕ) (nf : ℕ → ℚ) :
    (d.player_pool = [] →
        d.make_bot_pick_with_prefs rb qb rk fav tp sw rf la nf
          = (Except.ok none, d)) ∧
      (d.player_pool ≠ [] → d.player_pool.take la = [] →
        d.make_bot_pick_with_prefs rb qb rk fav tp sw rf la nf
          = (Except.error PickError.emptyMax, d)) := by
  constructor
  · intro hp
    unfold Draft.make_bot_pick_with_prefs
    rw [if_pos hp]
  · intro hp htake
    unfold Draft.make_bot_pick_with_prefs
    rw [if_neg hp]
    simp [htake, maxByKey]

theorem empty_candidates_amended_witness :
    (c2d.make_bot_pick_with_prefs 1 2 3 none 4 5 6 30 (fun _ => 0)
        = (Except.ok none, c2d)) ∧
      (c9d.make_bot_pick_with_prefs 1 2 3 none 4 5 6 0 (fun _ => 0)
        = (Except.error PickError.emptyMax, c9d)) :=
  ⟨(empty_candidates_amended c2d 1 2 3 none 4 5 6 30 (fun _ => 0)).1 rfl,
    (empty_candidates_amended c9d 1 2 3 none 4 5 6 0 (fun _ => 0)).2
      (by with_unfolding_all decide) rfl⟩

lemma modifyTeams_picks_sum {ts : List Team} {i : ℕ} (p : Player)
    (h : i < ts.length) :
    ((modifyTeams ts i p).map (fun t => t.picks.length)).sum
      = (ts.map (fun t => t.picks.length)).sum + 1 := by
  induction ts generalizing i with
  | nil => simp at h
  | cons t ts ih =>
    cases i with
    | zero =>
      simp [modifyTeams, Team.add_player]
      omega
    | succ j =>
      have hj := ih (by simpa using h)
      simp [modifyTeams]
      omega

lemma is_finished_iff (d : Draft) :
    d.is_finished = true ↔ d.num_rounds < d.current_round := by
  simp [Draft.is_finished]

/-- C10: neither `make_user_pick` nor `make_bot_pick_with_prefs` checks
`is_finished`; in a finished state with a non-empty pool they still
remove a player, grow a roster, and advance the sequencer beyond the
terminal round. -/
theorem no_terminal_guard (d : Draft) (rb qb rk : ℚ) (fav : Option String)
    (tp sw rf : ℚ) (la : ℕ) (nf : ℕ → ℚ) (nm : String)
    (hwf : d.WF) (hfin : d.is_finished = true)
    (hpool : d.player_pool ≠ []) (hla : 1 ≤ la) :
    (∃ p d', d.make_bot_pick_with_prefs rb qb rk fav tp sw rf la nf
          = (Except.ok (some p), d') ∧
        d'.player_pool.length + 1 = d.player_pool.length ∧
        (d'.teams.map (fun t => t.picks.length)).sum
          = (d.teams.map (fun t => t.picks.length)).sum + 1 ∧
        d'.is_finished = true ∧
        d.num_rounds ≤ d'.current_round) ∧
      (d.get_current_team_index = d.user_team_index →
        (∃ p ∈ d.player_pool, p.name = nm) →
        ∃ p d', d.make_user_pick nm = (Except.ok (some p), d') ∧
          d'.player_pool.length + 1 = d.player_pool.length ∧
          d'.is_finished = true) := by
  have hfin' := (is_finished_iff d).mp hfin
  have hidx : d.get_current_team_index < d.teams.length := by
    rw [hwf.1]
    exact get_current_team_index_lt hwf
  constructor
  · unfold Draft.make_bot_pick_with_prefs
    rw [if_neg hpool]
    cases hm : maxByKey (fun ip => d.score_player_for_prefs ip.2 rb qb rk
        fav tp sw rf (nf ip.1)) (d.player_pool.take la).enum with
    | none =>
      exfalso
      have henum := (maxByKey_eq_none_iff _ _).mp hm
      cases hp2 : d.player_pool with
      | nil => exact hpool hp2
      | cons a rest =>
        rw [hp2] at henum
        cases la with
        | zero => omega
        | succ m => simp [List.enum, List.enumFrom] at henum
    | some best =>
      have hbmem : best.2 ∈ d.player_pool :=
        List.take_subset la _ (mem_of_mem_enumFrom (maxByKey_mem hm))
      have hlp : 1 ≤ d.player_pool.length :=
        List.length_pos.mpr (by intro hh; rw [hh] at hbmem; cases hbmem)
      simp only [hm]
      refine ⟨best.2, _, rfl, ?_, ?_, ?_, ?_⟩
      · rw [advance_pick_player_pool]
        simp only [List.length_erase_of_mem hbmem]
        omega
      · rw [advance_pick_teams]
        exact modifyTeams_picks_sum best.2 hidx
      · rw [is_finished_iff, advance_pick_num_rounds, advance_pick_round]
        dsimp only
        split <;> omega
      · rw [advance_pick_round]
        dsimp only
        split <;> omega
  · intro ht hex
    cases hfr : findRemoveByName d.player_pool nm with
    | none =>
      obtain ⟨p, hp, hpn⟩ := hex
      exact absurd hpn ((findRemoveByName_none_iff _ _).mp hfr p hp)
    | some pr =>
      obtain ⟨q, rest⟩ := pr
      obtain ⟨_, _, hperm⟩ := findRemoveByName_some hfr
      refine ⟨q, ({ d with
          player_pool := rest
          teams := modifyTeams d.teams d.get_current_team_index q }
        : Draft).advance_pick, ?_, ?_, ?_⟩
      · unfold Draft.make_user_pick
        rw [if_neg (fun hh => hh ht)]
        simp only [hfr]
      · rw [advance_pick_player_pool]
        have hlen := hperm.length_eq
        simp at hlen
        simp [hlen]
      · rw [is_finished_iff, advance_pick_num_rounds, advance_pick_round]
        dsimp only
        split <;> omega

def c10d : Draft :=
  { num_teams := 1, num_rounds := 1, user_team_index := 0
    teams := [⟨"Team 1", [⟨"A", "RB", "SF", 1⟩]⟩]
    rookie_names := [], player_pool := [⟨"B", "WR", "KC", 2⟩]
    current_round := 2, current_pick_in_round := 1 }

theorem no_terminal_guard_witness :
    (∃ p d', c10d.make_bot_pick_with_prefs 0 0 0 none 0 0 0 30 (fun _ => 0)
          = (Except.ok (some p), d') ∧
        d'.player_pool.length + 1 = c10d.player_pool.length ∧
        (d'.teams.map (fun t => t.picks.length)).sum
          = (c10d.teams.map (fun t => t.picks.length)).sum + 1 ∧
        d'.is_finished = true ∧
        c10d.num_rounds ≤ d'.current_round) ∧
      (c10d.get_current_team_index = c10d.user_team_index →
        (∃ p ∈ c10d.player_pool, p.name = "B") →
        ∃ p d', c10d.make_user_pick "B" = (Except.ok (some p), d') ∧
          d'.player_pool.length + 1 = c10d.player_pool.length ∧
          d'.is_finished = true) :=
  no_terminal_guard c10d 0 0 0 none 0 0 0 30 (fun _ => 0) "B"
    (by constructor <;> decide) (by decide) (by decide) (by decide)

def c4rows : List CatalogRow :=
  [⟨"Q1", "QB", "KC", 1, 0⟩, ⟨"Q2", "QB", "BUF", 2, 0⟩,
    ⟨"Q3", "QB", "DAL", 3, 0⟩, ⟨"R1", "RB", "SF", 4, 0⟩]

def c4d0 : Draft := Draft.init c4rows false 1 5 0

def c4d1 : Draft := (c4d0.make_bot_pick).2

def c4d2 : Draft := (c4d1.make_bot_pick).2

def c4q3 : Player := ⟨"Q3", "QB", "DAL", 3⟩

/-- C4 counterexample: in a state reachable by two successful picks, a
profile with `qb_pref = 3000000` makes the bot draft a 3rd QB although a
non-QB candidate is available — the hard-cap claim fails when quantified
over every profile. -/
theorem hard_cap_cex :
    ReachN c4d0 2 c4d2 ∧
      posCount c4d2.currentTeam "QB" = 2 ∧
      (∃ q ∈ c4d2.player_pool, ¬ overcap c4d2 q) ∧
      (c4d2.make_bot_pick_with_prefs 0 3000000 0 none 0 0 0 30
          (fun _ => 0)).1 = Except.ok (some c4q3) ∧
      overcap c4d2 c4q3 := by
  refine ⟨ReachN.step (ReachN.step (ReachN.refl c4d0)
      ((Step.bot (p := ⟨"Q1", "QB", "KC", 1⟩)
        (by with_unfolding_all decide)) : Step c4d0 c4d1))
      ((Step.bot (p := ⟨"Q2", "QB", "BUF", 2⟩)
        (by with_unfolding_all decide)) : Step c4d1 c4d2),
    ?_, ?_, ?_, ?_⟩ <;> with_unfolding_all decide

/-- C4 amended: with the profile magnitudes the UI supplies (biases in
`[-5, 5]`, `|stack_weight| ≤ 2`, `|randomness_factor| ≤ 5/2`), unit noise
draws, and ADP values in `[0, 10000]`, a bot pick never selects a 3rd QB
or 3rd TE while the lookahead window still holds a non-over-cap
candidate. -/
theorem hard_cap_bounded (d : Draft) (rb qb rk : ℚ) (fav : Option String)
    (tp sw rf : ℚ) (la : ℕ) (nf : ℕ → ℚ) (p : Player) (d' : Draft)
    (h2 : 1 ≤ d.current_pick_in_round)
    (h3 : d.current_pick_in_round ≤ d.num_teams)
    (h5 : 1 ≤ d.current_round)
    (hrb : |rb| ≤ 5) (hqb : |qb| ≤ 5) (hrk : |rk| ≤ 5) (htp : |tp| ≤ 5)
    (hsw : |sw| ≤ 2) (hrf : |rf| ≤ 5 / 2) (hnf : ∀ i, |nf i| ≤ 1)
    (hadp : ∀ q ∈ d.player_pool, 0 ≤ q.adp ∧ q.adp ≤ 10000)
    (halt : ∃ q ∈ d.player_pool.take la, ¬ overcap d q)
    (h : d.make_bot_pick_with_prefs rb qb rk fav tp sw rf la nf
        = (Except.ok (some p), d')) :
    ¬ overcap d p := by
  intro hoc
  unfold Draft.make_bot_pick_with_prefs at h
  by_cases hp : d.player_pool = []
  · rw [if_pos hp] at h
    simp at h
  · rw [if_neg hp] at h
    cases hm : maxByKey (fun ip => d.score_player_for_prefs ip.2 rb qb rk
        fav tp sw rf (nf ip.1)) (d.player_pool.take la).enum with
    | none => simp only [hm] at h; simp at h
    | some best =>
      obtain ⟨i, b⟩ := best
      simp only [hm] at h
      have hbp : b = p := by
        have hfst := congrArg Prod.fst h
        simpa using hfst
      subst hbp
      obtain ⟨q, hqmem, hqno⟩ := halt
      obtain ⟨j, hj⟩ := exists_enumFrom_of_mem hqmem 0
      have hle := maxByKey_le hm (j, q) hj
      dsimp only at hle
      have hbmem : b ∈ d.player_pool :=
        List.take_subset la _ (mem_of_mem_enumFrom (maxByKey_mem hm))
      have hqpool : q ∈ d.player_pool := List.take_subset la _ hqmem
      have hbe := score_eq_specScore d b rb qb rk fav tp sw rf (nf i) h2 h3 h5
      have hqe := score_eq_specScore d q rb qb rk fav tp sw rf (nf j) h2 h3 h5
      rw [hbe, hqe] at hle
      have hub : specScore d b rb qb rk fav tp sw ≤ 22 - 1000000 :=
        specScore_le_of_overcap (hadp b hbmem).1 hrb hqb hrk htp hsw hoc
      have hlb : -10054 ≤ specScore d q rb qb rk fav tp sw :=
        specScore_ge_of_not_overcap (hadp q hqpool).2 hrb hqb hrk htp hsw
          hqno
      have hn1 := abs_le.mp (noise_abs_le (hnf i) hrf d)
      have hn2 := abs_le.mp (noise_abs_le (hnf j) hrf d)
      linarith

def c4rb : Player := ⟨"R1", "RB", "SF", 4⟩

theorem hard_cap_bounded_witness : ¬ overcap c4d2 c4rb :=
  hard_cap_bounded c4d2 0 0 0 none 0 0 0 30 (fun _ => 0) c4rb
    ((c4d2.make_bot_pick_with_prefs 0 0 0 none 0 0 0 30 (fun _ => 0)).2)
    (by with_unfolding_all decide) (by with_unfolding_all decide)
    (by with_unfolding_all decide) (by norm_num) (by norm_num) (by norm_num)
    (by norm_num) (by norm_num) (by norm_num) (fun _ => by norm_num)
    (by with_unfolding_all decide) (by with_unfolding_all decide)
    (by with_unfolding_all decide)

end MockDraft
